import Mathlib

/-
Shallow embedding of the `vigil` editor core (src/buffer.rs, src/editor.rs).
Rust strings are modelled as `List Char`, with the byte-based operations
of the source (`String::len`, `String::remove`, which count UTF-8 bytes
and panic off a character boundary) modelled through explicit UTF-8 byte
sizes (`utf8Len`, `removeByteIdx`), `none` standing for the panic.  The
`u16` fields of the editor are modelled as `Nat`, with Rust's
`saturating_sub` becoming truncated `Nat` subtraction.  File-system
effects are modelled by passing the file content (for loading) or the
write outcome (for saving) as an explicit parameter.
-/

namespace Vigil

/-- A buffer line: one Rust `String`, viewed as its character sequence. -/
abbrev Line := List Char

/-- UTF-8 byte length of a line: Rust `String::len` counts bytes, not
characters (`Char.utf8Size` is the UTF-8 byte count of one character). -/
def utf8Len : Line → Nat
  | [] => 0
  | c :: rest => c.utf8Size + utf8Len rest

/-- Rust `String::remove(x)`: removes the character whose UTF-8 encoding
starts at byte offset `x`; `none` models the panic raised when `x` does
not lie on a character boundary (the callers in this codebase guard `x`
below the byte length, so that panic source does not arise here). -/
def removeByteIdx : Line → Nat → Option Line
  | [], _ => none
  | c :: rest, x =>
    if x = 0 then some rest
    else if x < c.utf8Size then none
    else (removeByteIdx rest (x - c.utf8Size)).map (fun r => c :: r)

/-- `struct Buffer { file: Option<String>, lines: Vec<String> }` from
src/buffer.rs. The path is kept abstractly as its character sequence. -/
structure Buffer where
  file : Option (List Char)
  lines : List Line
deriving DecidableEq

namespace Buffer

/-- `Buffer::get` (src/buffer.rs): returns the line at `line` when
`lines.len() > line`, otherwise `None`. -/
def get (b : Buffer) (line : Nat) : Option Line :=
  if b.lines.length > line then b.lines.get? line else none

/-- `Buffer::len` (src/buffer.rs): number of lines. -/
def len (b : Buffer) : Nat := b.lines.length

/-- The character loop inside `Buffer::insert` (src/buffer.rs): walks the
existing line with a running `char_count`; when `char_count == x` the new
character is pushed before the current one; after the loop, if
`char_count < x` the line is space-padded to `x` and `c` appended, and if
`char_count == x` then `c` is appended. -/
def insertLoop (x : Nat) (c : Char) : Line → Nat → Line
  | [], charCount =>
    if charCount < x then List.replicate (x - charCount) ' ' ++ [c]
    else if charCount = x then [c]
    else []
  | ch :: rest, charCount =>
    if charCount = x then c :: ch :: insertLoop x c rest (charCount + 1)
    else ch :: insertLoop x c rest (charCount + 1)

/-- `Buffer::insert` (src/buffer.rs): if line `y` exists it is replaced by
the spliced/padded line; otherwise a new line (space-padded to `x` when
`x > 0`, then `c`) is pushed at the end of `lines`. -/
def insert (b : Buffer) (x y : Nat) (c : Char) : Buffer :=
  match b.lines.get? y with
  | some line => { b with lines := b.lines.set y (insertLoop x c line 0) }
  | none =>
    let newLine : Line := (if x > 0 then List.replicate x ' ' else []) ++ [c]
    { b with lines := b.lines ++ [newLine] }

/-- `Buffer::remove` (src/buffer.rs): if line `y` exists, is non-empty and
`x < line.len()` — a byte-length comparison — then `line.remove(x)`
removes the character starting at byte offset `x`, panicking (`none`)
when `x` is not a character boundary; otherwise nothing happens. -/
def remove (b : Buffer) (x y : Nat) : Option Buffer :=
  match b.lines.get? y with
  | some line =>
    if line ≠ [] ∧ x < utf8Len line then
      (removeByteIdx line x).map (fun nl => { b with lines := b.lines.set y nl })
    else some b
  | none => some b

/-- Modelled from the spec: `Buffer::remove_line` is called from
`Editor::run` (src/editor.rs) but its definition is not among the source
files; the spec states "removeLine(line): deletes the line at that index
entirely, shifting subsequent lines up by one; no-op if out of range." -/
def remove_line (b : Buffer) (line : Nat) : Buffer :=
  if line < b.lines.length then { b with lines := b.lines.eraseIdx line } else b

/-- `self.lines.join("\n")` from `Buffer::save` (src/buffer.rs). -/
def joinLines : List Line → Line
  | [] => []
  | [l] => l
  | l :: rest => l ++ '\n' :: joinLines rest

/-- Outcome of the underlying `std::fs::write` call, passed in explicitly
because the file system is outside the program. -/
inductive WriteResult
  | ok
  | ioError
deriving DecidableEq

/-- Observable result of `Buffer::save` (src/buffer.rs): with no
associated path nothing is written; with a path, a successful write emits
the joined content, while a failed write hits the `.unwrap()` and the
process panics. -/
inductive SaveResult
  | noFile
  | wrote (content : Line)
  | panicked
deriving DecidableEq

/-- `Buffer::save` (src/buffer.rs): `if let Some(file) = &self.file` then
`std::fs::write(file, lines.join("\n")).unwrap()`. The buffer itself is
taken by shared reference and never modified. -/
def save (b : Buffer) (w : WriteResult) : SaveResult :=
  match b.file with
  | some _ =>
    match w with
    | .ok => .wrote (joinLines b.lines)
    | .ioError => .panicked
  | none => .noFile

/-- One splitting pass on a character: `s.split(c)` semantics; always
returns a non-empty list of segments. -/
def splitOnChar (c : Char) : List Char → List (List Char)
  | [] => [[]]
  | ch :: rest =>
    if ch = c then [] :: splitOnChar c rest
    else
      match splitOnChar c rest with
      | [] => [[ch]]
      | seg :: segs => (ch :: seg) :: segs

/-- Strip one trailing carriage return, as Rust `str::lines` does on each
segment that was terminated by a newline. -/
def stripCR (l : Line) : Line :=
  if l.getLast? = some '\r' then l.dropLast else l

/-- Rust `str::lines` as used by `Buffer::from_file` (src/buffer.rs):
split on newline characters, drop the final empty segment produced by a
trailing newline, and strip a trailing carriage return from every
newline-terminated segment. -/
def rustLines (s : Line) : List Line :=
  let segs := splitOnChar '\n' s
  let main := segs.dropLast.map stripCR
  match segs.getLast? with
  | some last => if last = [] then main else main ++ [last]
  | none => main

/-- `Buffer::from_file` (src/buffer.rs), with the file content supplied
explicitly in place of the `std::fs::read_to_string` call: with a path the
lines are the content split by `str::lines`; without a path the buffer is
empty. -/
def from_file (file : Option (List Char)) (content : Line) : Buffer :=
  match file with
  | some _ => { file := file, lines := rustLines content }
  | none => { file := file, lines := [] }

end Buffer

/-- `enum Mode` (src/editor.rs). -/
inductive Mode
  | normal
  | insert
deriving DecidableEq

/-- The key codes distinguished by the editor's match arms; every other
crossterm key code falls into `other`. -/
inductive KeyCode
  | char (c : Char)
  | up
  | down
  | left
  | right
  | home
  | endKey
  | esc
  | backspace
  | enter
  | other
deriving DecidableEq

/-- Input events (crossterm `Event`): a key press with its code and
whether the modifier set is exactly CONTROL, a resize carrying the new
size, or any other event kind (focus, mouse, paste). -/
inductive Event
  | key (code : KeyCode) (ctrl : Bool)
  | resize (w h : Nat)
  | other
deriving DecidableEq

/-- `enum Action` (src/editor.rs). -/
inductive Action
  | quit
  | save
  | moveUp
  | moveDown
  | moveLeft
  | moveRight
  | moveToLineEnd
  | moveToLineStart
  | pageUp
  | pageDown
  | insertCharAtCursorPos (c : Char)
  | deleteCharAtCursorPos
  | deleteCurrentLine
  | setWaitingCad (c : Char)
  | newLine
  | enterMode (m : Mode)
deriving DecidableEq

/-- `struct Editor` (src/editor.rs), without the `stdout` handle, which
only carries drawing output. `size` is (width, height). -/
structure Editor where
  buffer : Buffer
  size : Nat × Nat
  mode : Mode
  vtop : Nat
  vleft : Nat
  cx : Nat
  cy : Nat
  waiting_command : Option Char
deriving DecidableEq

namespace Editor

/-- `Editor::vwidth`: screen width. -/
def vwidth (e : Editor) : Nat := e.size.1

/-- `Editor::vheight`: screen height minus the two status rows
(`u16` subtraction modelled as truncated `Nat` subtraction). -/
def vheight (e : Editor) : Nat := e.size.2 - 2

/-- `Editor::viewport_line`: the buffer line at `vtop + n`. -/
def viewport_line (e : Editor) (n : Nat) : Option Line :=
  e.buffer.get (e.vtop + n)

/-- `Editor::line_length`: `line.len() as u16`, the UTF-8 byte length of
the line under the cursor row, 0 when absent. -/
def line_length (e : Editor) : Nat :=
  match viewport_line e e.cy with
  | some line => utf8Len line
  | none => 0

/-- `Editor::buffer_line`: the absolute buffer line `vtop + cy`. -/
def buffer_line (e : Editor) : Nat := e.vtop + e.cy

/-- First statement of `Editor::check_bounds` (src/editor.rs): clamp `cx`
against the current line's length (`cx = line_length` when it overshoots a
non-empty line, `cx = 0` on an empty or absent line). -/
def clamp_cx_line (e : Editor) : Editor :=
  let ll := line_length e
  if e.cx ≥ ll then
    if ll > 0 then { e with cx := ll } else { e with cx := 0 }
  else e

/-- Second statement of `Editor::check_bounds`: clamp `cx` against the
viewport width. -/
def clamp_cx_width (e : Editor) : Editor :=
  if e.cx ≥ vwidth e then { e with cx := vwidth e } else e

/-- Third statement of `Editor::check_bounds`: when `cy + vtop` reaches
the buffer length, set `cy = buffer.len() - vtop` (a `u16` subtraction,
modelled as truncated `Nat` subtraction; exact whenever `vtop ≤ len`). -/
def clamp_cy (e : Editor) : Editor :=
  if e.cy + e.vtop ≥ e.buffer.len then
    { e with cy := e.buffer.len - e.vtop }
  else e

/-- `Editor::check_bounds` (src/editor.rs): the three clamping statements
in source order. -/
def check_bounds (e : Editor) : Editor :=
  clamp_cy (clamp_cx_width (clamp_cx_line e))

/-- `Editor::handle_waiting_command` (src/editor.rs): resolves the event
following a pending command character; only `'d'` is recognised, with
`'d'` completing to a delete-current-line and `Esc` producing a return to
Normal mode. -/
def handle_waiting_command (ev : Event) (cmd : Char) : Option Action :=
  match cmd with
  | 'd' =>
    match ev with
    | .key code _ =>
      match code with
      | .char c => if c = 'd' then some .deleteCurrentLine else none
      | .esc => some (.enterMode .normal)
      | _ => none
    | _ => none
  | _ => none

/-- `Editor::handle_normal_event` (src/editor.rs): when a pending command
is set it is cleared and the event resolved by `handle_waiting_command`;
otherwise the flat Normal-mode key table applies. -/
def handle_normal_event (e : Editor) (ev : Event) : Editor × Option Action :=
  match e.waiting_command with
  | some cmd => ({ e with waiting_command := none }, handle_waiting_command ev cmd)
  | none =>
    (e,
      match ev with
      | .key code ctrl =>
        match code with
        | .char c =>
          if c = 'q' then some .quit
          else if c = 'k' then some .moveUp
          else if c = 'j' then some .moveDown
          else if c = 'h' then some .moveLeft
          else if c = 'l' then some .moveRight
          else if c = 'i' then some (.enterMode .insert)
          else if c = '0' then some .moveToLineStart
          else if c = '$' then some .moveToLineEnd
          else if c = 'b' then (if ctrl then some .pageUp else none)
          else if c = 'f' then (if ctrl then some .pageDown else none)
          else if c = 's' then (if ctrl then some .save else none)
          else if c = 'd' then some (.setWaitingCad 'd')
          else none
        | .up => some .moveUp
        | .down => some .moveDown
        | .left => some .moveLeft
        | .right => some .moveRight
        | .home => some .moveToLineStart
        | .endKey => some .moveToLineEnd
        | _ => none
      | _ => none)

/-- `Editor::handle_insert_event` (src/editor.rs). -/
def handle_insert_event (ev : Event) : Option Action :=
  match ev with
  | .key code _ =>
    match code with
    | .esc => some (.enterMode .normal)
    | .char c => some (.insertCharAtCursorPos c)
    | .backspace => some .deleteCharAtCursorPos
    | .enter => some .newLine
    | _ => none
  | _ => none

/-- `Editor::handle_event` (src/editor.rs): a resize event updates the
stored size and yields no action; otherwise dispatch on the mode. -/
def handle_event (e : Editor) (ev : Event) : Editor × Option Action :=
  match ev with
  | .resize w h => ({ e with size := (w, h) }, none)
  | _ =>
    match e.mode with
    | .normal => handle_normal_event e ev
    | .insert => (e, handle_insert_event ev)

/-- The `match action` body of `Editor::run` (src/editor.rs): how each
resolved action mutates the editor state (drawing calls omitted; `Quit`
breaks the loop and `Save` writes through `Buffer::save`, neither touches
the in-memory state). The result is `none` when the action panics, which
happens exactly when `Buffer::remove` is called at a byte offset that is
not a character boundary. -/
def apply_action (e : Editor) (a : Action) : Option Editor :=
  match a with
  | .quit => some e
  | .save => some e
  | .moveUp =>
    if e.cy = 0 then
      if e.vtop > 0 then some { e with vtop := e.vtop - 1 } else some e
    else some { e with cy := e.cy - 1 }
  | .moveDown =>
    let cy := e.cy + 1
    if cy > vheight e then some { e with vtop := e.vtop + 1, cy := cy - 1 }
    else some { e with cy := cy }
  | .moveLeft =>
    let cx := e.cx - 1
    if cx < e.vleft then some { e with cx := e.vleft } else some { e with cx := cx }
  | .moveRight => some { e with cx := e.cx + 1 }
  | .moveToLineEnd => some { e with cx := line_length e - 1 }
  | .moveToLineStart => some { e with cx := 0 }
  | .pageUp =>
    if e.vtop > 0 then some { e with vtop := e.vtop - vheight e } else some e
  | .pageDown =>
    if e.buffer.len > e.vtop + vheight e then
      some { e with vtop := e.vtop + vheight e }
    else some e
  | .enterMode m => some { e with mode := m }
  | .insertCharAtCursorPos c =>
    let e1 := { e with buffer := e.buffer.insert e.cx (buffer_line e) c }
    some { e1 with cx := e1.cx + 1 }
  | .deleteCharAtCursorPos =>
    if e.cx > 0 then
      let e1 := { e with cx := e.cx - 1 }
      (e1.buffer.remove e1.cx (buffer_line e1)).map (fun b => { e1 with buffer := b })
    else if buffer_line e > 0 then
      let e1 := { e with cy := e.cy - 1 }
      let e2 := { e1 with cx := line_length e1 }
      if e2.cx > 0 then
        let e3 := { e2 with cx := e2.cx - 1 }
        (e3.buffer.remove e3.cx (buffer_line e3)).map (fun b => { e3 with buffer := b })
      else some e2
    else some e
  | .newLine => some { e with cy := e.cy + 1, cx := 0 }
  | .setWaitingCad c => some { e with waiting_command := some c }
  | .deleteCurrentLine =>
    let line := buffer_line e
    let e1 := { e with buffer := e.buffer.remove_line line }
    let e2 := if e1.cy > 0 then { e1 with cy := e1.cy - 1 } else e1
    if e2.vtop > 0 then some { e2 with vtop := e2.vtop - 1 } else some e2

/-- One iteration of the `Editor::run` loop (src/editor.rs): clamp with
`check_bounds`, resolve the event, apply the resulting action if any
(`none` when applying the action panics). -/
def step (e : Editor) (ev : Event) : Option Editor :=
  let e1 := check_bounds e
  match handle_event e1 ev with
  | (e2, some a) => apply_action e2 a
  | (e2, none) => some e2

/-- `Editor::new` (src/editor.rs): initial editor state for a buffer and
terminal size. -/
def init (b : Buffer) (size : Nat × Nat) : Editor :=
  { buffer := b, size := size, mode := .normal, vtop := 0, vleft := 0,
    cx := 0, cy := 0, waiting_command := none }

end Editor

/-! ## Helper lemmas -/

namespace Buffer

theorem get_eq_some_iff (b : Buffer) (y : Nat) (l : Line) :
    b.get y = some l ↔ b.lines.get? y = some l := by
  constructor
  · intro hg
    unfold get at hg
    split_ifs at hg with h
    exact hg
  · intro hg
    have hy : y < b.lines.length := by
      by_contra hc
      rw [List.get?_eq_none.mpr (Nat.le_of_not_lt hc)] at hg
      exact Option.noConfusion hg
    unfold get
    rw [if_pos (show b.lines.length > y from hy)]
    exact hg

theorem get_eq_none_of_le (b : Buffer) (y : Nat) (h : b.len ≤ y) :
    b.get y = none := by
  unfold get
  rw [if_neg (by exact Nat.not_lt.mpr h)]

theorem insertLoop_get? (x : Nat) (c : Char) (l : Line) (cc : Nat) (h : cc ≤ x) :
    (insertLoop x c l cc).get? (x - cc) = some c := by
  induction l generalizing cc with
  | nil =>
    unfold insertLoop
    rcases Nat.lt_or_ge cc x with hlt | hge
    · rw [if_pos hlt, List.get?_append_right (by simp)]
      simp
    · have hx : cc = x := Nat.le_antisymm h hge
      subst hx
      simp
  | cons ch rest ih =>
    unfold insertLoop
    rcases Nat.eq_or_lt_of_le h with heq | hlt
    · subst heq
      simp
    · rw [if_neg (Nat.ne_of_lt hlt)]
      have h2 := ih (cc + 1) hlt
      rw [show x - cc = (x - (cc + 1)) + 1 by omega]
      simpa using h2

end Buffer

/-! ## C1 -/

/-- C1 counterexample: on the empty buffer, `insert` at line 1 appends the
new line at index 0, so `get 1` returns nothing — the claimed character
cannot be found at line 1, column 0. -/
theorem C1_counterexample :
    ¬ ∃ l, ((Buffer.mk none []).insert 0 1 'a').get 1 = some l ∧
      l.get? 0 = some 'a' := by
  rintro ⟨l, hl, -⟩
  have hn : ((Buffer.mk none []).insert 0 1 'a').get 1 = none := rfl
  rw [hn] at hl
  exact Option.noConfusion hl

/-- C1 (amended): provided `line ≤ lineCount()`, `insertChar(column, line, ch)`
followed by `lineAt(line)` yields a line whose character at `column` is `ch`;
when `line` exceeds `lineCount()` the new line is instead appended at index
`lineCount()` and `lineAt(line)` is absent. -/
theorem C1_insert_get (b : Buffer) (x y : Nat) (c : Char) (h : y ≤ b.len) :
    ∃ l, (b.insert x y c).get y = some l ∧ l.get? x = some c := by
  rcases Nat.lt_or_ge y b.len with hlt | hge
  · obtain ⟨l, hl⟩ : ∃ l, b.lines.get? y = some l :=
      ⟨b.lines.get ⟨y, hlt⟩, List.get?_eq_get hlt⟩
    refine ⟨Buffer.insertLoop x c l 0, ?_, ?_⟩
    · unfold Buffer.insert
      rw [hl]
      unfold Buffer.get
      simp only [List.length_set]
      rw [if_pos (show b.lines.length > y from hlt)]
      exact List.get?_set_eq_of_lt _ hlt
    · simpa using Buffer.insertLoop_get? x c l 0 (Nat.zero_le x)
  · have hy : y = b.len := Nat.le_antisymm h hge
    have hnone : b.lines.get? y = none := List.get?_eq_none.mpr hge
    refine ⟨(if x > 0 then List.replicate x ' ' else []) ++ [c], ?_, ?_⟩
    · unfold Buffer.insert
      rw [hnone]
      unfold Buffer.get
      simp only [List.length_append, List.length_singleton]
      rw [if_pos (by unfold Buffer.len at hy; omega)]
      rw [show y = b.lines.length from hy]
      exact List.get?_concat_length _ _
    · rcases Nat.eq_zero_or_pos x with hx | hx
      · subst hx
        simp
      · rw [if_pos hx, List.get?_append_right (by simp)]
        simp

/-- C1 witness: inserting at `line = lineCount()` (the append case) makes the
character visible at the requested column. -/
theorem C1_insert_get_witness :
    1 ≤ (Buffer.mk none [['h', 'i']]).len ∧
    ∃ l, ((Buffer.mk none [['h', 'i']]).insert 4 1 'z').get 1 = some l ∧
      l.get? 4 = some 'z' :=
  ⟨by decide, C1_insert_get (Buffer.mk none [['h', 'i']]) 4 1 'z' (by decide)⟩

/-! ## C9 -/

/-- C9: for `line ≥ lineCount()`, `insertChar` appends the space-padded new
line at the end of the buffer (index `lineCount()`), growing the line count by
exactly one; when the target line exists the line count is unchanged. -/
theorem C9_insert_append (b : Buffer) (x y : Nat) (c : Char) :
    (b.len ≤ y →
      (b.insert x y c).lines = b.lines ++ [List.replicate x ' ' ++ [c]] ∧
      (b.insert x y c).len = b.len + 1) ∧
    (y < b.len → (b.insert x y c).len = b.len) := by
  have hpad : (if x > 0 then List.replicate x ' ' else ([] : Line)) =
      List.replicate x ' ' := by
    split_ifs with hx
    · rfl
    · rw [show x = 0 by omega]
      rfl
  constructor
  · intro h
    have hnone : b.lines.get? y = none := List.get?_eq_none.mpr h
    unfold Buffer.insert
    rw [hnone]
    constructor
    · simp [hpad]
    · simp [Buffer.len]
  · intro h
    obtain ⟨l, hl⟩ : ∃ l, b.lines.get? y = some l :=
      ⟨b.lines.get ⟨y, h⟩, List.get?_eq_get h⟩
    unfold Buffer.insert
    rw [hl]
    simp [Buffer.len]

/-- C9 witness: inserting at line 2 of a one-line buffer appends at index 1;
inserting into the existing line 0 keeps the line count. -/
theorem C9_insert_append_witness :
    (Buffer.mk none [['a']]).len ≤ 2 ∧
    ((Buffer.mk none [['a']]).insert 3 2 'z').lines =
      (Buffer.mk none [['a']]).lines ++ [List.replicate 3 ' ' ++ ['z']] ∧
    ((Buffer.mk none [['a']]).insert 3 2 'z').len = (Buffer.mk none [['a']]).len + 1 :=
  ⟨by decide, (C9_insert_append (Buffer.mk none [['a']]) 3 2 'z').1 (by decide)⟩

/-! ## C6 -/

/-- Every character occupies at least one UTF-8 byte, so a non-empty line
has positive byte length. -/
theorem utf8Len_pos (l : Line) (h : l ≠ []) : 0 < utf8Len l := by
  cases l with
  | nil => exact absurd rfl h
  | cons c rest =>
    show 0 < c.utf8Size + utf8Len rest
    have := c.utf8Size_pos
    omega

/-- `String::remove` at a byte offset below the byte length: either the
offset is a character boundary — the byte length of the first `i`
characters for some `i` — and the `i`-th character is removed, or it is no
boundary and the call panics. -/
theorem removeByteIdx_spec (l : Line) (x : Nat) (hx : x < utf8Len l) :
    (∃ i, i < l.length ∧ utf8Len (l.take i) = x ∧
       removeByteIdx l x = some (l.take i ++ l.drop (i + 1))) ∨
    ((∀ i, utf8Len (l.take i) ≠ x) ∧ removeByteIdx l x = none) := by
  induction l generalizing x with
  | nil => simp [utf8Len] at hx
  | cons c rest ih =>
    have hsz := c.utf8Size_pos
    by_cases hx0 : x = 0
    · subst hx0
      left
      exact ⟨0, by simp, rfl, rfl⟩
    · by_cases hxc : x < c.utf8Size
      · right
        constructor
        · intro i
          cases i with
          | zero =>
            show utf8Len ([] : Line) ≠ x
            simpa [utf8Len] using fun hn => hx0 hn.symm
          | succ j =>
            show utf8Len (c :: rest.take j) ≠ x
            have h1 : utf8Len (c :: rest.take j) =
                c.utf8Size + utf8Len (rest.take j) := rfl
            omega
        · show removeByteIdx (c :: rest) x = none
          simp only [removeByteIdx]
          rw [if_neg hx0, if_pos hxc]
      · have hxrest : x - c.utf8Size < utf8Len rest := by
          have h1 : utf8Len (c :: rest) = c.utf8Size + utf8Len rest := rfl
          omega
        have hrw : removeByteIdx (c :: rest) x =
            (removeByteIdx rest (x - c.utf8Size)).map (fun r => c :: r) := by
          simp only [removeByteIdx]
          rw [if_neg hx0, if_neg hxc]
        rcases ih (x - c.utf8Size) hxrest with ⟨i, hi1, hi2, hi3⟩ | ⟨hall, hnone⟩
        · left
          refine ⟨i + 1, by simpa using hi1, ?_, ?_⟩
          · show utf8Len (c :: rest.take i) = x
            have h1 : utf8Len (c :: rest.take i) =
                c.utf8Size + utf8Len (rest.take i) := rfl
            omega
          · rw [hrw, hi3]
            rfl
        · right
          refine ⟨?_, by rw [hrw, hnone]; rfl⟩
          intro i
          cases i with
          | zero =>
            show utf8Len ([] : Line) ≠ x
            simpa [utf8Len] using fun hn => hx0 hn.symm
          | succ j =>
            show utf8Len (c :: rest.take j) ≠ x
            have h1 : utf8Len (c :: rest.take j) =
                c.utf8Size + utf8Len (rest.take j) := rfl
            have := hall j
            omega

/-- C6 counterexample: on the line `"é"` (one character, two UTF-8 bytes)
the guard `x < line.len()` passes at byte offset 1, which is not a
character boundary, so `String::remove(1)` panics — the call is neither a
silent no-op nor error-free, refuting the claim at this input. -/
theorem C6_counterexample :
    Buffer.remove (Buffer.mk none [['é']]) 1 0 = none ∧
    Buffer.remove (Buffer.mk none [['é']]) 1 0 ≠
      some (Buffer.mk none [['é']]) := by
  decide

/-- C6 (amended): `removeChar(column, line)` treats `column` as a byte
offset. When the line exists, is non-empty and `column` is below its byte
length, the character starting at byte `column` is removed if `column` is
a character boundary (the byte length of the first `i` characters, whose
`i`-th character is then spliced out), and the program panics if it is
not; in every other case the buffer is returned unchanged (a silent
no-op). On lines of single-byte characters this coincides with the
original claim. -/
theorem C6_remove (b : Buffer) (x y : Nat) :
    match b.lines.get? y with
    | some l =>
      if l ≠ [] ∧ x < utf8Len l then
        (∃ i, i < l.length ∧ utf8Len (l.take i) = x ∧
           b.remove x y =
             some { file := b.file,
                    lines := b.lines.set y (l.take i ++ l.drop (i + 1)) }) ∨
        ((∀ i, utf8Len (l.take i) ≠ x) ∧ b.remove x y = none)
      else b.remove x y = some b
    | none => b.remove x y = some b := by
  cases hg : b.lines.get? y with
  | none =>
    show b.remove x y = some b
    unfold Buffer.remove
    rw [hg]
  | some l =>
    simp only [hg]
    have hr : b.remove x y =
        (if l ≠ [] ∧ x < utf8Len l then
          (removeByteIdx l x).map (fun nl => { b with lines := b.lines.set y nl })
        else some b) := by
      unfold Buffer.remove
      rw [hg]
    by_cases hc : l ≠ [] ∧ x < utf8Len l
    · rw [if_pos hc]
      rcases removeByteIdx_spec l x hc.2 with ⟨i, hi1, hi2, hi3⟩ | ⟨hall, hnone⟩
      · left
        refine ⟨i, hi1, hi2, ?_⟩
        rw [hr, if_pos hc, hi3]
        rfl
      · right
        refine ⟨hall, ?_⟩
        rw [hr, if_pos hc, hnone]
        rfl
    · rw [if_neg hc]
      rw [hr, if_neg hc]

/-! ## C7 -/

/-- C7 evaluation at the failing input: with an associated path, a failed
`std::fs::write` hits the `.unwrap()` in `Buffer::save` and the process
panics — the failure is not returned to the caller as a reportable error.
The in-memory half of the claim does hold: applying the Save action leaves
the whole editor state, buffer included, unchanged. -/
theorem C7_save_failure :
    Buffer.save (Buffer.mk (some ['f']) [['a']]) Buffer.WriteResult.ioError =
      Buffer.SaveResult.panicked ∧
    Editor.apply_action (Editor.init (Buffer.mk (some ['f']) [['a']]) (80, 24))
        Action.save =
      some (Editor.init (Buffer.mk (some ['f']) [['a']]) (80, 24)) :=
  ⟨rfl, rfl⟩

/-! ## C4 -/

/-- C4: in Normal mode with buffer `["a","b","c"]` and the cursor on buffer
line 1, running two loop iterations on the key `'d'` deletes the current
line without panicking: the buffer becomes `["a","c"]`. -/
theorem C4_dd_deletes_line :
    ((Editor.step
        { Editor.init (Buffer.mk none [['a'], ['b'], ['c']]) (80, 24) with cy := 1 }
        (Event.key (KeyCode.char 'd') false)).bind (fun e =>
      Editor.step e (Event.key (KeyCode.char 'd') false))).map
      (fun e => e.buffer.lines) = some [['a'], ['c']] := by
  decide

/-! ## C5 -/

/-- Whether an event is a resize event (`Event::Resize` in the source). -/
def Event.isResize : Event → Bool
  | .resize _ _ => true
  | _ => false

/-- C5 counterexample: after `'d'` sets the pending command, processing a
resize event — which `handle_event` intercepts before mode dispatch — leaves
the pending command still set, so the very next event does not always clear
it and it can survive two consecutive events. -/
theorem C5_counterexample :
    ((Editor.step (Editor.init (Buffer.mk none [['a']]) (80, 24))
        (Event.key (KeyCode.char 'd') false)).map
      (fun e => e.waiting_command)) = some (some 'd') ∧
    ((Editor.step (Editor.init (Buffer.mk none [['a']]) (80, 24))
        (Event.key (KeyCode.char 'd') false)).bind (fun e =>
      Editor.step e (Event.resize 100 40))).map
      (fun e => e.waiting_command) = some (some 'd') := by
  decide

/-- C5 (amended): in Normal mode, processing any non-resize event always
clears the pending command, whatever that event is; a resize event, being
intercepted before mode dispatch, leaves the pending-command slot exactly as
it was. -/
theorem C5_pending_cleared (e : Editor) (ev : Event) :
    (e.mode = Mode.normal → ev.isResize = false →
      (Editor.handle_event e ev).1.waiting_command = none) ∧
    (ev.isResize = true →
      (Editor.handle_event e ev).1.waiting_command = e.waiting_command) := by
  constructor
  · intro hm hr
    cases ev with
    | resize w h => simp [Event.isResize] at hr
    | key code ctrl =>
      cases hw : e.waiting_command <;>
        simp [Editor.handle_event, Editor.handle_normal_event, hm, hw]
    | other =>
      cases hw : e.waiting_command <;>
        simp [Editor.handle_event, Editor.handle_normal_event, hm, hw]
  · intro hr
    cases ev with
    | resize w h => rfl
    | key code ctrl => simp [Event.isResize] at hr
    | other => simp [Event.isResize] at hr

/-- C5 witness: at a concrete Normal-mode state with a pending `'d'`, a
plain key event clears the slot. -/
theorem C5_pending_cleared_witness :
    ({ buffer := Buffer.mk none [['a']], size := (80, 24), mode := Mode.normal,
       vtop := 0, vleft := 0, cx := 0, cy := 0,
       waiting_command := some 'd' } : Editor).mode = Mode.normal ∧
    (Event.key (KeyCode.char 'x') false).isResize = false ∧
    (Editor.handle_event
        { buffer := Buffer.mk none [['a']], size := (80, 24), mode := Mode.normal,
          vtop := 0, vleft := 0, cx := 0, cy := 0,
          waiting_command := some 'd' }
        (Event.key (KeyCode.char 'x') false)).1.waiting_command = none :=
  ⟨rfl, rfl,
    (C5_pending_cleared
        { buffer := Buffer.mk none [['a']], size := (80, 24), mode := Mode.normal,
          vtop := 0, vleft := 0, cx := 0, cy := 0,
          waiting_command := some 'd' }
        (Event.key (KeyCode.char 'x') false)).1 rfl rfl⟩

/-! ## C10 -/

/-- C10: event resolution (`handle_event` with its mode-specific
sub-handlers) never changes the buffer, the cursor coordinates, the scroll
offsets, or the mode — only the stored size and the pending-command slot can
differ afterwards. -/
theorem C10_handle_event_frame (e : Editor) (ev : Event) :
    (Editor.handle_event e ev).1.buffer = e.buffer ∧
    (Editor.handle_event e ev).1.cx = e.cx ∧
    (Editor.handle_event e ev).1.cy = e.cy ∧
    (Editor.handle_event e ev).1.vtop = e.vtop ∧
    (Editor.handle_event e ev).1.vleft = e.vleft ∧
    (Editor.handle_event e ev).1.mode = e.mode := by
  cases ev with
  | resize w h => exact ⟨rfl, rfl, rfl, rfl, rfl, rfl⟩
  | key code ctrl =>
    cases hm : e.mode <;>
      cases hw : e.waiting_command <;>
        simp [Editor.handle_event, Editor.handle_normal_event, hm, hw]
  | other =>
    cases hm : e.mode <;>
      cases hw : e.waiting_command <;>
        simp [Editor.handle_event, Editor.handle_normal_event, hm, hw]


/-! ## C2 -/

namespace Buffer

theorem get_some_of_lt (b : Buffer) (y : Nat) (h : y < b.len) :
    ∃ l, b.get y = some l := by
  unfold get
  rw [if_pos (show b.lines.length > y from h)]
  exact ⟨_, List.get?_eq_get h⟩

end Buffer

namespace Editor

theorem clamp_cx_line_proj (e : Editor) :
    (clamp_cx_line e).buffer = e.buffer ∧ (clamp_cx_line e).cy = e.cy ∧
    (clamp_cx_line e).vtop = e.vtop := by
  unfold clamp_cx_line
  dsimp only
  split_ifs <;> exact ⟨rfl, rfl, rfl⟩

theorem clamp_cx_line_cx_le (e : Editor) :
    (clamp_cx_line e).cx ≤ line_length e := by
  unfold clamp_cx_line
  dsimp only
  split_ifs with h1 h2
  · exact Nat.le_refl _
  · exact Nat.zero_le _
  · exact Nat.le_of_lt (Nat.lt_of_not_ge h1)

theorem clamp_cx_width_proj (e : Editor) :
    (clamp_cx_width e).buffer = e.buffer ∧ (clamp_cx_width e).cy = e.cy ∧
    (clamp_cx_width e).vtop = e.vtop := by
  unfold clamp_cx_width
  split_ifs <;> exact ⟨rfl, rfl, rfl⟩

theorem clamp_cx_width_cx_le (e : Editor) :
    (clamp_cx_width e).cx ≤ e.cx := by
  unfold clamp_cx_width
  split_ifs with h
  · exact h
  · exact Nat.le_refl _

theorem line_length_of_get_some (e : Editor) (l : Line)
    (h : e.buffer.get (e.vtop + e.cy) = some l) : line_length e = utf8Len l := by
  unfold line_length viewport_line
  rw [h]

theorem line_length_of_get_none (e : Editor)
    (h : e.buffer.get (e.vtop + e.cy) = none) : line_length e = 0 := by
  unfold line_length viewport_line
  rw [h]

end Editor

/-- C2 counterexample: starting from the initial state on the one-line
buffer `["a"]` and pressing `'j'` (one loop iteration), the next
iteration's `check_bounds` leaves `vtop + cy = 1`, which exceeds
`max(lineCount()-1, 0) = 0` — the clamp stops at `lineCount()`, not
`lineCount()-1`. -/
theorem C2_counterexample :
    (Editor.step (Editor.init (Buffer.mk none [['a']]) (80, 24))
        (Event.key (KeyCode.char 'j') false)).map (fun e =>
      decide ((Editor.check_bounds e).vtop + (Editor.check_bounds e).cy ≤
        max ((Editor.check_bounds e).buffer.len - 1) 0)) = some false := by
  decide

/-- C2 (amended): for every editor state with `vtop ≤ lineCount()` (the
regime in which the `u16` subtraction `len - vtop` cannot underflow),
`check_bounds` never moves `vtop`, never increases `cy`, leaves
`vtop + cy ≤ lineCount()` — one more than the claimed `lineCount()-1`
bound, because the adjustment sets `cy = lineCount() - vtop` — and leaves
`cx` at most the byte length (`line.len()`) of the line at the final
`absoluteLine()` (`cx = 0` when that line is absent). -/
theorem C2_check_bounds (e : Editor) (h : e.vtop ≤ e.buffer.len) :
    (Editor.check_bounds e).vtop = e.vtop ∧
    (Editor.check_bounds e).cy ≤ e.cy ∧
    (Editor.check_bounds e).vtop + (Editor.check_bounds e).cy ≤ e.buffer.len ∧
    (match (Editor.check_bounds e).buffer.get
        ((Editor.check_bounds e).vtop + (Editor.check_bounds e).cy) with
     | some l => (Editor.check_bounds e).cx ≤ utf8Len l
     | none => (Editor.check_bounds e).cx = 0) := by
  obtain ⟨hb1, hc1, hv1⟩ := Editor.clamp_cx_line_proj e
  obtain ⟨hb2, hc2, hv2⟩ := Editor.clamp_cx_width_proj (Editor.clamp_cx_line e)
  set e2 := Editor.clamp_cx_width (Editor.clamp_cx_line e) with he2
  have hbuf : e2.buffer = e.buffer := by rw [hb2, hb1]
  have hcy : e2.cy = e.cy := by rw [hc2, hc1]
  have hvtop : e2.vtop = e.vtop := by rw [hv2, hv1]
  have hlen : e2.buffer.len = e.buffer.len := by rw [hbuf]
  have hcx_le : e2.cx ≤ Editor.line_length e :=
    Nat.le_trans (Editor.clamp_cx_width_cx_le _) (Editor.clamp_cx_line_cx_le e)
  have hcb : Editor.check_bounds e = Editor.clamp_cy e2 := rfl
  rw [hcb]
  by_cases hcond : e2.cy + e2.vtop ≥ e2.buffer.len
  · have hres : Editor.clamp_cy e2 = { e2 with cy := e2.buffer.len - e2.vtop } := by
      unfold Editor.clamp_cy
      rw [if_pos hcond]
    have hcond2 : e.buffer.len ≤ e.vtop + e.cy := by
      rw [hlen, hcy, hvtop] at hcond
      omega
    have hll0 : Editor.line_length e = 0 :=
      Editor.line_length_of_get_none e
        (Buffer.get_eq_none_of_le _ _ hcond2)
    have hcx0 : e2.cx = 0 := Nat.le_zero.mp (hll0 ▸ hcx_le)
    rw [hres]
    refine ⟨hvtop, ?_, ?_, ?_⟩
    · show e2.buffer.len - e2.vtop ≤ e.cy
      rw [hlen, hvtop]
      omega
    · show e2.vtop + (e2.buffer.len - e2.vtop) ≤ e.buffer.len
      rw [hlen, hvtop]
      omega
    · have hn : e2.buffer.get (e2.vtop + (e2.buffer.len - e2.vtop)) = none := by
        apply Buffer.get_eq_none_of_le
        rw [hlen, hvtop]
        omega
      simp only [hn]
      exact hcx0
  · have hres : Editor.clamp_cy e2 = e2 := by
      unfold Editor.clamp_cy
      rw [if_neg hcond]
    rw [hres]
    push_neg at hcond
    have hlt : e.vtop + e.cy < e.buffer.len := by
      rw [hlen, hcy, hvtop] at hcond
      omega
    obtain ⟨l, hl⟩ := Buffer.get_some_of_lt e.buffer (e.vtop + e.cy) hlt
    have hg2 : e2.buffer.get (e2.vtop + e2.cy) = some l := by
      rw [hbuf, hvtop, hcy]
      exact hl
    refine ⟨hvtop, Nat.le_of_eq hcy, ?_, ?_⟩
    · rw [hvtop, hcy]
      omega
    · simp only [hg2]
      rw [← Editor.line_length_of_get_some e l hl]
      exact hcx_le

/-- C2 witness: the amended bounds at a concrete in-range state (the
one-line buffer with the cursor one row below its last line). -/
theorem C2_check_bounds_witness :
    ({ Editor.init (Buffer.mk none [['a']]) (80, 24) with cy := 1 } : Editor).vtop ≤
      ({ Editor.init (Buffer.mk none [['a']]) (80, 24) with cy := 1 } : Editor).buffer.len ∧
    ((Editor.check_bounds
        { Editor.init (Buffer.mk none [['a']]) (80, 24) with cy := 1 }).vtop =
      ({ Editor.init (Buffer.mk none [['a']]) (80, 24) with cy := 1 } : Editor).vtop ∧
     (Editor.check_bounds
        { Editor.init (Buffer.mk none [['a']]) (80, 24) with cy := 1 }).cy ≤
      ({ Editor.init (Buffer.mk none [['a']]) (80, 24) with cy := 1 } : Editor).cy ∧
     (Editor.check_bounds
        { Editor.init (Buffer.mk none [['a']]) (80, 24) with cy := 1 }).vtop +
     (Editor.check_bounds
        { Editor.init (Buffer.mk none [['a']]) (80, 24) with cy := 1 }).cy ≤
      ({ Editor.init (Buffer.mk none [['a']]) (80, 24) with cy := 1 } : Editor).buffer.len ∧
     (match (Editor.check_bounds
          { Editor.init (Buffer.mk none [['a']]) (80, 24) with cy := 1 }).buffer.get
          ((Editor.check_bounds
            { Editor.init (Buffer.mk none [['a']]) (80, 24) with cy := 1 }).vtop +
           (Editor.check_bounds
            { Editor.init (Buffer.mk none [['a']]) (80, 24) with cy := 1 }).cy) with
      | some l =>
        (Editor.check_bounds
          { Editor.init (Buffer.mk none [['a']]) (80, 24) with cy := 1 }).cx ≤ utf8Len l
      | none =>
        (Editor.check_bounds
          { Editor.init (Buffer.mk none [['a']]) (80, 24) with cy := 1 }).cx = 0)) :=
  ⟨by decide,
    C2_check_bounds
      { Editor.init (Buffer.mk none [['a']]) (80, 24) with cy := 1 }
      (by decide)⟩

/-! ## C3 -/

namespace Buffer

theorem splitOnChar_ne_nil (c : Char) (s : List Char) : splitOnChar c s ≠ [] := by
  induction s with
  | nil => simp [splitOnChar]
  | cons ch rest ih =>
    unfold splitOnChar
    split_ifs with h
    · simp
    · cases hs : splitOnChar c rest with
      | nil => simp
      | cons seg segs => simp

theorem splitOnChar_of_not_mem (c : Char) (l : List Char) (h : c ∉ l) :
    splitOnChar c l = [l] := by
  induction l with
  | nil => rfl
  | cons ch rest ih =>
    conv_lhs => unfold splitOnChar
    rw [if_neg (fun hc : ch = c => h (hc ▸ List.mem_cons_self ch rest))]
    rw [ih (fun hm => h (List.mem_cons_of_mem ch hm))]

theorem splitOnChar_append (c : Char) (l s : List Char) (h : c ∉ l) :
    splitOnChar c (l ++ c :: s) = l :: splitOnChar c s := by
  induction l with
  | nil =>
    show splitOnChar c (c :: s) = [] :: splitOnChar c s
    conv_lhs => unfold splitOnChar
    rw [if_pos rfl]
  | cons ch rest ih =>
    show splitOnChar c (ch :: (rest ++ c :: s)) = (ch :: rest) :: splitOnChar c s
    conv_lhs => unfold splitOnChar
    rw [if_neg (fun hc : ch = c => h (hc ▸ List.mem_cons_self ch rest))]
    rw [ih (fun hm => h (List.mem_cons_of_mem ch hm))]

theorem stripCR_of_no_cr (l : Line) (h : l.getLast? ≠ some '\r') :
    stripCR l = l := by
  unfold stripCR
  rw [if_neg h]

theorem rustLines_single (l : Line) (h1 : '\n' ∉ l) (h2 : l ≠ []) :
    rustLines l = [l] := by
  unfold rustLines
  rw [splitOnChar_of_not_mem _ _ h1]
  simp [h2]

theorem rustLines_cons (l : Line) (s : List Char) (h : '\n' ∉ l) :
    rustLines (l ++ '\n' :: s) = stripCR l :: rustLines s := by
  unfold rustLines
  rw [splitOnChar_append _ _ _ h]
  obtain ⟨seg, segs, hs⟩ : ∃ seg segs, splitOnChar '\n' s = seg :: segs := by
    cases hq : splitOnChar '\n' s with
    | nil => exact absurd hq (splitOnChar_ne_nil _ _)
    | cons a t => exact ⟨a, t, rfl⟩
  rw [hs]
  cases hq : (seg :: segs).getLast? with
  | none => simp at hq
  | some last =>
    simp only [List.dropLast_cons₂, List.map_cons, List.getLast?_cons_cons, hq]
    by_cases hempty : last = []
    · rw [if_pos hempty, if_pos hempty]
    · rw [if_neg hempty, if_neg hempty]
      simp

theorem rustLines_joinLines (ls : List Line) :
    (∀ l ∈ ls, '\n' ∉ l) → (∀ l ∈ ls, l.getLast? ≠ some '\r') →
    ls.getLast? ≠ some [] → rustLines (joinLines ls) = ls := by
  induction ls with
  | nil =>
    intro _ _ _
    rfl
  | cons l rest ih =>
    intro h1 h2 h3
    cases rest with
    | nil =>
      have hl : l ≠ [] := by
        intro hc
        subst hc
        exact h3 rfl
      rw [show joinLines [l] = l from rfl]
      exact rustLines_single l (h1 l (by simp)) hl
    | cons l2 rest2 =>
      rw [show joinLines (l :: l2 :: rest2) = l ++ '\n' :: joinLines (l2 :: rest2)
        from rfl]
      rw [rustLines_cons l _ (h1 l (by simp))]
      rw [stripCR_of_no_cr l (h2 l (by simp))]
      rw [ih (fun x hx => h1 x (by simp [hx])) (fun x hx => h2 x (by simp [hx]))
        (fun hc => h3 (by rw [List.getLast?_cons_cons]; exact hc))]

end Buffer

/-- C3 counterexample: a buffer holding one empty line saves as the empty
content, which loads back as zero lines — the round trip loses the
trailing empty line. -/
theorem C3_counterexample :
    Buffer.save (Buffer.mk (some ['f']) [[]]) Buffer.WriteResult.ok =
      Buffer.SaveResult.wrote [] ∧
    (Buffer.from_file (some ['f']) []).lines ≠
      (Buffer.mk (some ['f']) [[]]).lines := by
  decide

/-- C3 (amended): saving a buffer with an associated path and reloading the
written content yields the identical ordered line sequence, provided no
line contains a newline character, no line ends in a carriage return, and
the final line is not empty (a trailing empty line is dropped by the
join-with-newline / split-lines round trip). -/
theorem C3_save_load (b : Buffer) (p : List Char) (hf : b.file = some p)
    (h1 : ∀ l ∈ b.lines, '\n' ∉ l)
    (h2 : ∀ l ∈ b.lines, l.getLast? ≠ some '\r')
    (h3 : b.lines.getLast? ≠ some []) :
    ∀ content,
      Buffer.save b Buffer.WriteResult.ok = Buffer.SaveResult.wrote content →
      (Buffer.from_file (some p) content).lines = b.lines := by
  intro content hsave
  unfold Buffer.save at hsave
  rw [hf] at hsave
  have hcontent : content = Buffer.joinLines b.lines := by
    injection hsave with hc
    exact hc.symm
  subst hcontent
  show (Buffer.from_file (some p) (Buffer.joinLines b.lines)).lines = b.lines
  unfold Buffer.from_file
  exact Buffer.rustLines_joinLines b.lines h1 h2 h3

/-- C3 witness: the round trip at a concrete one-line buffer. -/
theorem C3_save_load_witness :
    (Buffer.from_file (some ['f']) (Buffer.joinLines [['a']])).lines =
      (Buffer.mk (some ['f']) [['a']]).lines :=
  C3_save_load (Buffer.mk (some ['f']) [['a']]) ['f'] rfl (by decide) (by decide)
    (by decide) (Buffer.joinLines [['a']]) rfl


/-! ## C8 -/

/-- Unfolding `String::remove` past a leading character when the byte
offset reaches beyond it. -/
theorem removeByteIdx_cons_ge (a : Char) (rest : Line) (x : Nat)
    (h : a.utf8Size ≤ x) :
    removeByteIdx (a :: rest) x =
      (removeByteIdx rest (x - a.utf8Size)).map (fun r => a :: r) := by
  have h0 : ¬ x = 0 := by
    have := a.utf8Size_pos
    omega
  have hc : ¬ x < a.utf8Size := by omega
  simp only [removeByteIdx]
  rw [if_neg h0, if_neg hc]

/-- `String::remove` at the byte offset `byte length - 1` of a line whose
last character is a single byte removes exactly that last character. -/
theorem removeByteIdx_last_single (l : Line) (c : Char) (hl : l.getLast? = some c)
    (hs : c.utf8Size = 1) : removeByteIdx l (utf8Len l - 1) = some l.dropLast := by
  induction l with
  | nil => simp at hl
  | cons a rest ih =>
    cases rest with
    | nil =>
      have hac : a = c := by simpa using hl
      have hsz : a.utf8Size = 1 := by rw [hac]; exact hs
      have h0 : utf8Len [a] - 1 = 0 := by
        show a.utf8Size + 0 - 1 = 0
        omega
      rw [h0]
      rfl
    | cons b rest2 =>
      rw [List.getLast?_cons_cons] at hl
      have hrpos : 0 < utf8Len (b :: rest2) := utf8Len_pos _ (by simp)
      have hsza := a.utf8Size_pos
      have hge : a.utf8Size ≤ utf8Len (a :: b :: rest2) - 1 := by
        show a.utf8Size ≤ a.utf8Size + utf8Len (b :: rest2) - 1
        omega
      have harg : utf8Len (a :: b :: rest2) - 1 - a.utf8Size =
          utf8Len (b :: rest2) - 1 := by
        show a.utf8Size + utf8Len (b :: rest2) - 1 - a.utf8Size =
          utf8Len (b :: rest2) - 1
        omega
      rw [removeByteIdx_cons_ge a (b :: rest2) _ hge, harg, ih hl]
      rfl

/-- `String::remove` at byte offset `byte length - 1` of a line whose last
character occupies two or more bytes hits the inside of that character's
encoding and panics. -/
theorem removeByteIdx_last_multi (l : Line) (c : Char) (hl : l.getLast? = some c)
    (hs : 2 ≤ c.utf8Size) : removeByteIdx l (utf8Len l - 1) = none := by
  induction l with
  | nil => simp at hl
  | cons a rest ih =>
    cases rest with
    | nil =>
      have hac : a = c := by simpa using hl
      have hsz : 2 ≤ a.utf8Size := by rw [hac]; exact hs
      have hx0 : ¬ utf8Len [a] - 1 = 0 := by
        show ¬ a.utf8Size + 0 - 1 = 0
        omega
      have hxc : utf8Len [a] - 1 < a.utf8Size := by
        show a.utf8Size + 0 - 1 < a.utf8Size
        omega
      simp only [removeByteIdx]
      rw [if_neg hx0, if_pos hxc]
    | cons b rest2 =>
      rw [List.getLast?_cons_cons] at hl
      have hrpos : 0 < utf8Len (b :: rest2) := utf8Len_pos _ (by simp)
      have hsza := a.utf8Size_pos
      have hge : a.utf8Size ≤ utf8Len (a :: b :: rest2) - 1 := by
        show a.utf8Size ≤ a.utf8Size + utf8Len (b :: rest2) - 1
        omega
      have harg : utf8Len (a :: b :: rest2) - 1 - a.utf8Size =
          utf8Len (b :: rest2) - 1 := by
        show a.utf8Size + utf8Len (b :: rest2) - 1 - a.utf8Size =
          utf8Len (b :: rest2) - 1
        omega
      rw [removeByteIdx_cons_ge a (b :: rest2) _ hge, harg, ih hl]
      rfl

/-- C8 counterexample: in Insert mode at column 0 on buffer line 1
(`vtop = 1`, `cy = 0`), Backspace removes the last character of the
*current* line (line 1 loses `'d'`) and the cursor stays on buffer line 1 —
the previous line `"ab"` is untouched and the cursor never reaches it,
because `cy.saturating_sub(1)` cannot move above the viewport top. -/
theorem C8_counterexample :
    (Editor.step
        { buffer := Buffer.mk none [['a', 'b'], ['c', 'd']], size := (80, 24),
          mode := Mode.insert, vtop := 1, vleft := 0, cx := 0, cy := 0,
          waiting_command := none }
        (Event.key KeyCode.backspace false)).map
      (fun e => (e.buffer.lines, Editor.buffer_line e)) =
      some ([['a', 'b'], ['c']], 1) ∧
    [['a', 'b'], ['c']] ≠ ([['a'], ['c', 'd']] : List Line) := by
  decide

/-- C8 (amended): the Backspace action at column 0 with `cy > 0` (the
previous line reachable within the viewport) moves the cursor up one row;
if the previous line is absent or empty only the cursor moves (`cx = 0`);
if it is non-empty and its last character is a single UTF-8 byte, that
last character is removed and `cx` lands at the line's old byte length
minus one (its new end); if its last character occupies several bytes, the
code calls `String::remove` inside that character's encoding and panics.
When `cy = 0` with `vtop > 0` the action instead edits the current line
(see the counterexample). -/
theorem C8_backspace (e : Editor) (h0 : e.cx = 0) (h1 : 0 < e.cy) :
    match e.buffer.get (e.vtop + (e.cy - 1)) with
    | none =>
      Editor.apply_action e Action.deleteCharAtCursorPos =
        some { e with cy := e.cy - 1, cx := 0 }
    | some l =>
      match l.getLast? with
      | none =>
        Editor.apply_action e Action.deleteCharAtCursorPos =
          some { e with cy := e.cy - 1, cx := 0 }
      | some c =>
        if c.utf8Size = 1 then
          Editor.apply_action e Action.deleteCharAtCursorPos =
            some { e with
                    cy := e.cy - 1, cx := utf8Len l - 1,
                    buffer := { file := e.buffer.file,
                                lines := e.buffer.lines.set
                                  (e.vtop + (e.cy - 1)) l.dropLast } }
        else
          Editor.apply_action e Action.deleteCharAtCursorPos = none := by
  have hbl : Editor.buffer_line e > 0 := by
    unfold Editor.buffer_line
    omega
  unfold Editor.apply_action
  rw [if_neg (show ¬ e.cx > 0 by omega), if_pos hbl]
  dsimp only
  cases hg : e.buffer.get (e.vtop + (e.cy - 1)) with
  | none =>
    have hL : Editor.line_length { e with cy := e.cy - 1 } = 0 :=
      Editor.line_length_of_get_none _ hg
    rw [hL, if_neg (Nat.lt_irrefl 0)]
  | some l =>
    dsimp only
    cases hlast : l.getLast? with
    | none =>
      have hnil : l = [] := List.getLast?_eq_none.mp hlast
      subst hnil
      have hL : Editor.line_length { e with cy := e.cy - 1 } = 0 := by
        rw [Editor.line_length_of_get_some _ _ hg]
        rfl
      rw [hL, if_neg (Nat.lt_irrefl 0)]
    | some c =>
      dsimp only [Editor.buffer_line]
      have hlne : l ≠ [] := by
        intro hnil
        subst hnil
        simp at hlast
      have hL : Editor.line_length { e with cy := e.cy - 1 } = utf8Len l :=
        Editor.line_length_of_get_some _ l hg
      have hpos : 0 < utf8Len l := utf8Len_pos l hlne
      rw [hL, if_pos hpos]
      have hgl : e.buffer.lines.get? (e.vtop + (e.cy - 1)) = some l :=
        (Buffer.get_eq_some_iff _ _ _).mp hg
      have hrem : e.buffer.remove (utf8Len l - 1) (e.vtop + (e.cy - 1)) =
          (removeByteIdx l (utf8Len l - 1)).map
            (fun nl => { e.buffer with
              lines := e.buffer.lines.set (e.vtop + (e.cy - 1)) nl }) := by
        unfold Buffer.remove
        rw [hgl]
        dsimp only
        rw [if_pos (⟨hlne, by omega⟩ : l ≠ [] ∧ utf8Len l - 1 < utf8Len l)]
      by_cases hs : c.utf8Size = 1
      · rw [if_pos hs, hrem, removeByteIdx_last_single l c hlast hs]
        rfl
      · rw [if_neg hs]
        have hs2 : 2 ≤ c.utf8Size := by
          have := c.utf8Size_pos
          omega
        rw [hrem, removeByteIdx_last_multi l c hlast hs2]
        rfl

/-- C8 witness: at a concrete Insert-mode state (`["ab","cd"]`, `cy = 1`,
`cx = 0`), Backspace moves up to line 0 and removes its last character,
landing the cursor at its new end. -/
theorem C8_backspace_witness :
    ({ buffer := Buffer.mk none [['a', 'b'], ['c', 'd']], size := (80, 24),
       mode := Mode.insert, vtop := 0, vleft := 0, cx := 0, cy := 1,
       waiting_command := none } : Editor).cx = 0 ∧
    0 < ({ buffer := Buffer.mk none [['a', 'b'], ['c', 'd']], size := (80, 24),
           mode := Mode.insert, vtop := 0, vleft := 0, cx := 0, cy := 1,
           waiting_command := none } : Editor).cy ∧
    Editor.apply_action
        { buffer := Buffer.mk none [['a', 'b'], ['c', 'd']], size := (80, 24),
          mode := Mode.insert, vtop := 0, vleft := 0, cx := 0, cy := 1,
          waiting_command := none } Action.deleteCharAtCursorPos =
      some { buffer := Buffer.mk none [['a'], ['c', 'd']], size := (80, 24),
             mode := Mode.insert, vtop := 0, vleft := 0, cx := 1, cy := 0,
             waiting_command := none } :=
  ⟨rfl, by decide, by
    have h := C8_backspace
      { buffer := Buffer.mk none [['a', 'b'], ['c', 'd']], size := (80, 24),
        mode := Mode.insert, vtop := 0, vleft := 0, cx := 0, cy := 1,
        waiting_command := none } rfl (by decide)
    exact h⟩

end Vigil
